import Mathlib

/-!
Verification of the MLCCM interpolation core against its specification.

The Python sources `src/mesh_interp.py` and `src/reverse_interp.py` are
shallowly embedded below: numeric cell values are modelled as rationals,
numpy float arrays as `List ℚ`, possibly non-finite float values as
`FloatVal`, CSV files as lists of lines, and the file system visible to the
inverse driver as a list of file names.  The scipy `Rbf` interpolant build
and evaluation is kept as an uninterpreted semantic parameter (`RbfSem`):
the code under verification only composes it pointwise, sanitizes its
output and lays the results out in records, and those are the behaviours
the claims speak about.
-/

namespace MLCCM

/-! ## Model of numpy float values and `np.nan_to_num`

`FloatVal` distinguishes finite values (as exact rationals) from the IEEE
specials that `np.nan_to_num` acts on.  `float64Max` is the exact value of
`np.finfo(np.float64).max = (2^53 - 1) * 2^971`. -/

inductive FloatVal : Type
  | finite : ℚ → FloatVal
  | nan : FloatVal
  | posInf : FloatVal
  | negInf : FloatVal
  deriving DecidableEq

def float64Max : ℚ := (2 ^ 53 - 1) * 2 ^ 971

/-- Embeds numpy's `np.nan_to_num` with default arguments
(`mesh_interp.py` lines 140-142, `reverse_interp.py` lines 102-104):
NaN becomes `0`, `+inf` becomes the largest finite float64 and `-inf`
the most negative finite float64. -/
def nan_to_num : FloatVal → FloatVal
  | FloatVal.nan => FloatVal.finite 0
  | FloatVal.posInf => FloatVal.finite float64Max
  | FloatVal.negInf => FloatVal.finite (-float64Max)
  | FloatVal.finite q => FloatVal.finite q

def isFiniteVal : FloatVal → Bool
  | FloatVal.finite _ => true
  | _ => false

/-- The value of a sanitized cell as written to the output CSV. -/
def toQ : FloatVal → ℚ
  | FloatVal.finite q => q
  | _ => 0

/-- The sanitization step applied to a whole interpolated array
(`np.nan_to_num(grid_def_x)` et al.). -/
def sanitizeArr (l : List FloatVal) : List FloatVal := l.map nan_to_num

/-! ## `mesh_gen` (`src/mesh_interp.py` lines 30-73)

`np.linspace(0, 30, n)` followed by `np.meshgrid`, `flatten` and
`column_stack` produces, in row-major order, the pairs `(x[c], y[r])` for
each row `r` and column `c`.  The boolean masks and their combination are
transcribed condition by condition. -/

def linspace (n : ℕ) : List ℚ :=
  if n ≤ 1 then List.replicate n 0
  else (List.range n).map (fun (i : ℕ) => 30 * (i : ℚ) / ((n : ℚ) - 1))

/-- The flattened meshgrid lattice: for each `y` value (outer), every `x`
value (inner), exactly as `np.column_stack([xx.flatten(), yy.flatten()])`
enumerates the candidate points. -/
def candidates (n : ℕ) : List (ℚ × ℚ) :=
  ((linspace n).map (fun yv => (linspace n).map (fun xv => (xv, yv)))).flatten

def in_main_square (p : ℚ × ℚ) : Bool :=
  decide (0 ≤ p.1) && decide (p.1 ≤ 30) && decide (0 ≤ p.2) && decide (p.2 ≤ 30)

def out_excluded_square (p : ℚ × ℚ) : Bool :=
  !(decide (15 < p.1) && decide (p.1 ≤ 30) && decide (15 < p.2) && decide (p.2 ≤ 30))

def out_excluded_circle (p : ℚ × ℚ) : Bool :=
  decide ((p.1 - 15) ^ 2 + (p.2 - 15) ^ 2 ≥ 7 ^ 2)

def in_fillet_circ_1 (p : ℚ × ℚ) : Bool :=
  decide ((p.1 - 12.5) ^ 2 + (p.2 - 24.17) ^ 2 ≤ 2.5 ^ 2)

def in_fillet_circ_2 (p : ℚ × ℚ) : Bool :=
  decide ((p.1 - 24.17) ^ 2 + (p.2 - 12.5) ^ 2 ≤ 2.5 ^ 2)

def out_square_1 (p : ℚ × ℚ) : Bool :=
  decide (13.16 < p.1) && decide (p.1 < 15) && decide (21.75 < p.2) && decide (p.2 < 24.17)

def out_square_2 (p : ℚ × ℚ) : Bool :=
  decide (21.75 < p.1) && decide (p.1 < 24.17) && decide (13.16 < p.2) && decide (p.2 < 15)

/-- The combined mask `final_region` of `mesh_gen`
(`src/mesh_interp.py` lines 55-66). -/
def final_region (p : ℚ × ℚ) : Bool :=
  (in_main_square p && out_excluded_square p && out_excluded_circle p
      && !(out_square_1 p) && !(out_square_2 p))
    || (out_square_1 p && in_fillet_circ_1 p)
    || (out_square_2 p && in_fillet_circ_2 p)

/-- `mesh_gen`: the candidate lattice filtered by `final_region`.  The
source returns the kept points split into an `x` array and a `y` array in
lattice order; here they stay paired, in the same order. -/
def mesh_gen (n : ℕ) : List (ℚ × ℚ) :=
  (candidates n).filter final_region

/-! ## Record transformers
(`src/mesh_interp.py` lines 104-153, `src/reverse_interp.py` lines 66-115)

A CSV record is a `List ℚ` of cell values.  The scipy `Rbf` interpolant is
kept as a semantic parameter: building it from source x/y coordinates, a
field-value array and a method name yields a function evaluated pointwise
at each destination coordinate pair.  The transformers only compose it,
sanitize its output with `nan_to_num` and lay out the result. -/

def RbfSem : Type :=
  List ℚ → List ℚ → List ℚ → String → ℚ → ℚ → FloatVal

/-- Field extraction `[row[i+ofs] for i in range(c+2, c+2+nEl*3, 3)]`
(`mesh_interp.py` lines 120-123): `ofs = 0` is `def_x`, `1` is `def_y`,
`2` is `def_xy`. -/
def defField (row : List ℚ) (c ofs nEl : ℕ) : List ℚ :=
  (List.range nEl).map (fun i => row.getD (c + 2 + 3 * i + ofs) 0)

/-- One timestep block of the output record: the force pair copied from
`row[c]`, `row[c+1]`, then for `i` below `len(grid_def_x)` the triple
`(grid_def_x[i], grid_def_y[i], grid_def_xy[i])`
(`mesh_interp.py` lines 115-150 with `nEl = 564`,
`reverse_interp.py` lines 78-112 with `nEl` recovered from the row). -/
def blockModel (R : RbfSem) (sx sy : List ℚ) (method : String)
    (dx dy : List ℚ) (nEl : ℕ) (row : List ℚ) (j : ℕ) : List ℚ :=
  let c := j * nEl * 3 + j * 2
  let fX := defField row c 0 nEl
  let fY := defField row c 1 nEl
  let fXY := defField row c 2 nEl
  let gX := List.zipWith (fun a b => toQ (nan_to_num (R sx sy fX method a b))) dx dy
  let gY := List.zipWith (fun a b => toQ (nan_to_num (R sx sy fY method a b))) dx dy
  let gXY := List.zipWith (fun a b => toQ (nan_to_num (R sx sy fXY method a b))) dx dy
  [row.getD c 0, row.getD (c + 1) 0]
    ++ ((List.range gX.length).map
        (fun i => [gX.getD i 0, gY.getD i 0, gXY.getD i 0])).flatten

/-- Python `int()` on a rational value: truncation toward zero. -/
def truncQ (q : ℚ) : ℤ := if q < 0 then ⌈q⌉ else ⌊q⌋

/-- The inverse transformer's per-record element-count recovery
`n_el = int((len(row)/20-2)/3)` (`reverse_interp.py` line 68). -/
def n_el (rowLen : ℕ) : ℤ := truncQ (((rowLen : ℚ) / 20 - 2) / 3)

/-- The forward transformer's block offset `c = j*564*3+j*2`
(`mesh_interp.py` line 115): the element count 564 is hard-coded. -/
def fwdC (j : ℕ) : ℕ := j * 564 * 3 + j * 2

/-- The inverse transformer's block offset `c = j*n_el*3+j*2`
(`reverse_interp.py` line 78). -/
def invC (nEl j : ℕ) : ℕ := j * nEl * 3 + j * 2

/-- One forward-transformed record: the 20 timestep blocks concatenated
in order, with the hard-coded source element count 564. -/
def recordFwd (R : RbfSem) (sx sy : List ℚ) (method : String)
    (dx dy : List ℚ) (row : List ℚ) : List ℚ :=
  ((List.range 20).map (blockModel R sx sy method dx dy 564 row)).flatten

/-- One inverse-transformed record: the 20 timestep blocks concatenated in
order, with the element count recovered from the row length. -/
def recordInv (R : RbfSem) (gx gy : List ℚ) (method : String)
    (cx cy : List ℚ) (row : List ℚ) : List ℚ :=
  ((List.range 20).map
    (blockModel R gx gy method cx cy (n_el row.length).toNat row)).flatten

/-! ## Streaming output buffer
(`src/mesh_interp.py` lines 152-170, `src/reverse_interp.py` lines 114-130)

The output file is a list of lines; `OutLine.header` is the single header
row `pandas.to_csv(header=True)` emits, `OutLine.data r` one data row.
`none` models a path with no file.  A job starts on a fresh path (the
sources delete any pre-existing output file first). -/

inductive OutLine (α : Type) : Type
  | header : OutLine α
  | data : α → OutLine α
  deriving DecidableEq

def isHeader {α : Type} : OutLine α → Bool
  | OutLine.header => true
  | OutLine.data _ => false

def isData {α : Type} : OutLine α → Bool
  | OutLine.header => false
  | OutLine.data _ => true

def countHeaders {α : Type} (f : List (OutLine α)) : ℕ := f.countP isHeader

def countData {α : Type} (f : List (OutLine α)) : ℕ := f.countP isData

/-- The per-record loop body around the buffer: append the completed
record to `bg_bf`; once it holds exactly 100 records, flush it — with a
header when the file does not yet exist, without one otherwise — and
clear it. -/
def loopS {α : Type} (file : Option (List (OutLine α))) (batch : List α) :
    List α → Option (List (OutLine α)) × List α
  | [] => (file, batch)
  | r :: rs =>
    let b := batch ++ [r]
    if b.length = 100 then
      match file with
      | none => loopS (some (OutLine.header :: b.map OutLine.data)) [] rs
      | some f => loopS (some (f ++ b.map OutLine.data)) [] rs
    else loopS file b rs

/-- Whole-job streaming on a fresh output path: run the loop from an
absent file and an empty buffer, then perform the final flush, which
always appends without a header (and creates the file when absent). -/
def runStream {α : Type} (records : List α) : List (OutLine α) :=
  let st := loopS none [] records
  st.1.getD [] ++ st.2.map OutLine.data

/-- A complete forward job on its input data rows (header already
consumed by `next(reader)`). -/
def runJobFwd (R : RbfSem) (sx sy : List ℚ) (method : String)
    (dx dy : List ℚ) (rows : List (List ℚ)) : List (OutLine (List ℚ)) :=
  runStream (rows.map (recordFwd R sx sy method dx dy))

/-- A complete inverse job on the data rows of its predecessor file. -/
def runJobInv (R : RbfSem) (gx gy : List ℚ) (method : String)
    (cx cy : List ℚ) (rows : List (List ℚ)) : List (OutLine (List ℚ)) :=
  runStream (rows.map (recordInv R gx gy method cx cy))

/-! ## Inverse driver
(`src/reverse_interp.py` lines 29-58 and 195-204)

The file system is the list of existing file names.  `arrTruthy` models
python truthiness of a numpy boolean array: unambiguous only when the
array has at most one element, a `ValueError` otherwise. -/

def fnameOf (b : String) (g : ℕ) (m : String) : String :=
  b ++ "_" ++ toString g ++ "_" ++ m ++ ".csv"

def fnameInvOf (b : String) (g : ℕ) (m : String) : String :=
  b ++ "_" ++ toString g ++ "_" ++ m ++ "_inv.csv"

def arrTruthy (l : List Bool) : Except Unit Bool :=
  match l with
  | [] => Except.ok false
  | [b] => Except.ok b
  | _ => Except.error ()

inductive InvOutcome : Type
  | skipped : InvOutcome
  | guardNone : InvOutcome
  | crashed : InvOutcome
  | completed : InvOutcome
  deriving DecidableEq

/-- `inv_interpolator` up to the point where a job's fate is decided:
delete any previous `_inv` output; if the forward-transformed predecessor
is missing, warn and return `None` (`skipped`); otherwise generate the
mesh and run the guard `if grid_x == None:` — elementwise comparison of
the coordinate array with `None` is an all-`False` boolean array, whose
truthiness raises for more than one element (`crashed`), returns `None`
when it evaluates true (`guardNone`), and otherwise the job proceeds to
the streaming loop and writes its output file (`completed`). -/
def inv_interpolator_model (fs : List String) (b : String) (g : ℕ)
    (m : String) : List String × InvOutcome :=
  let fs1 := fs.erase (fnameInvOf b g m)
  if fnameOf b g m ∈ fs1 then
    match arrTruthy ((mesh_gen g).map (fun _ => false)) with
    | Except.error _ => (fs1, InvOutcome.crashed)
    | Except.ok true => (fs1, InvOutcome.guardNone)
    | Except.ok false => (fs1 ++ [fnameInvOf b g m], InvOutcome.completed)
  else (fs1, InvOutcome.skipped)

/-- The driver sweep of `reverse_interp.main` over `(grid, method)` jobs
for the single input file: a falsy result (skip or guard) appends no
metrics record and moves on; an uncaught exception aborts the sweep; a
completed job appends one metrics record, identified here by its
`(grid, method)` pair. -/
def sweepInv (b : String) : List String → List (ℕ × String) →
    List (ℕ × String) → Except Unit (List String × List (ℕ × String))
  | fs, ms, [] => Except.ok (fs, ms)
  | fs, ms, (g, m) :: rest =>
    match inv_interpolator_model fs b g m with
    | (_, InvOutcome.crashed) => Except.error ()
    | (fs1, InvOutcome.completed) => sweepInv b fs1 (ms ++ [(g, m)]) rest
    | (fs1, InvOutcome.skipped) => sweepInv b fs1 ms rest
    | (fs1, InvOutcome.guardNone) => sweepInv b fs1 ms rest

/-- The configured grid resolutions (`reverse_interp.py` line 25). -/
def GRIDS : List ℕ := [20, 30, 40]

/-- The configured interpolation methods (`reverse_interp.py` line 26). -/
def METHODS : List String := ["linear", "cubic", "multiquadric"]

/-- A trivial interpolant semantics used to instantiate witnesses. -/
def constRbf : RbfSem := fun _ _ _ _ _ _ => FloatVal.finite 0

/-! ## List helpers -/

lemma flatten_length_const {α : Type} (W : ℕ) :
    ∀ (ls : List (List α)), (∀ l ∈ ls, l.length = W) →
      ls.flatten.length = ls.length * W := by
  intro ls
  induction ls with
  | nil => intro _; simp
  | cons b t ih =>
    intro h
    have hb : b.length = W := h b (List.mem_cons_self b t)
    have ht := ih (fun l hl => h l (List.mem_cons_of_mem b hl))
    simp [List.flatten_cons, hb, ht, Nat.succ_mul, Nat.add_comm]

lemma flatten_getD {α : Type} (d : α) (W : ℕ) :
    ∀ (ls : List (List α)) (j r : ℕ), (∀ l ∈ ls, l.length = W) →
      j < ls.length → r < W →
      ls.flatten.getD (j * W + r) d = (ls.getD j []).getD r d := by
  intro ls
  induction ls with
  | nil => intro j r _ hj _; simp at hj
  | cons b t ih =>
    intro j r h hj hr
    have hb : b.length = W := h b (List.mem_cons_self b t)
    have ht : ∀ l ∈ t, l.length = W := fun l hl => h l (List.mem_cons_of_mem b hl)
    cases j with
    | zero =>
      simp only [Nat.zero_mul, Nat.zero_add, List.flatten_cons, List.getD_cons_zero]
      exact List.getD_append b t.flatten d r (by omega)
    | succ k =>
      have hlen : b.length ≤ (k + 1) * W + r := by
        rw [hb, Nat.succ_mul]; omega
      rw [List.flatten_cons, List.getD_append_right b t.flatten d _ hlen]
      have hidx : (k + 1) * W + r - b.length = k * W + r := by
        rw [hb, Nat.succ_mul]; omega
      rw [hidx, List.getD_cons_succ]
      exact ih k r ht (by simpa using hj) hr

lemma getD_map_range {β : Type} (f : ℕ → β) (n j : ℕ) (d : β) (h : j < n) :
    ((List.range n).map f).getD j d = f j := by
  rw [List.getD_eq_getElem?_getD]
  simp [List.getElem?_map, List.getElem?_range, h]

lemma two_mem_one_lt_length {β : Type} {a b : β} {l : List β}
    (ha : a ∈ l) (hb : b ∈ l) (hab : a ≠ b) : 1 < l.length := by
  match l with
  | [] => cases ha
  | [x] =>
    rw [List.mem_singleton] at ha hb
    exact absurd (ha.trans hb.symm) hab
  | x :: y :: t => simp

/-! ## Counting lemmas for output files -/

lemma countHeaders_map_data {α : Type} (l : List α) :
    countHeaders (l.map OutLine.data) = 0 := by
  induction l with
  | nil => rfl
  | cons a t ih => simpa [countHeaders, List.countP_cons, isHeader] using ih

lemma countData_map_data {α : Type} (l : List α) :
    countData (l.map OutLine.data) = l.length := by
  induction l with
  | nil => rfl
  | cons a t ih => simpa [countData, List.countP_cons, isData] using ih

lemma countData_nil {α : Type} : countData ([] : List (OutLine α)) = 0 := rfl

lemma countData_header_cons {α : Type} (l : List (OutLine α)) :
    countData (OutLine.header :: l) = countData l := by
  simp [countData, List.countP_cons, isData]

lemma countHeaders_append {α : Type} (l t : List (OutLine α)) :
    countHeaders (l ++ t) = countHeaders l + countHeaders t := by
  simp [countHeaders, List.countP_append]

lemma countData_append {α : Type} (l t : List (OutLine α)) :
    countData (l ++ t) = countData l + countData t := by
  simp [countData, List.countP_append]

/-! ## Streaming-loop invariants -/

/-- A well-formed output file: exactly one header line, and it is the
first line. -/
def GoodFile {α : Type} (f : List (OutLine α)) : Prop :=
  countHeaders f = 1 ∧ f.head? = some OutLine.header

lemma goodFile_append_data {α : Type} (f : List (OutLine α)) (b : List α)
    (h : GoodFile f) : GoodFile (f ++ b.map OutLine.data) := by
  obtain ⟨h1, h2⟩ := h
  constructor
  · rw [countHeaders_append, h1, countHeaders_map_data]
  · cases f with
    | nil => simp at h2
    | cons x t => simpa using h2

lemma goodFile_fresh {α : Type} (b : List α) :
    GoodFile (OutLine.header :: b.map OutLine.data) := by
  constructor
  · simp [countHeaders, List.countP_cons, isHeader, countHeaders_map_data]
  · rfl

lemma loopS_no_flush {α : Type} :
    ∀ (rs : List α) (file : Option (List (OutLine α))) (batch : List α),
      batch.length + rs.length < 100 →
      loopS file batch rs = (file, batch ++ rs) := by
  intro rs
  induction rs with
  | nil => intro file batch _; simp [loopS]
  | cons r rs ih =>
    intro file batch h
    have hlen : ¬((batch ++ [r]).length = 100) := by
      simp only [List.length_append, List.length_cons, List.length_nil]
      simp at h ⊢; omega
    simp only [loopS, hlen, if_neg hlen]
    rw [ih file (batch ++ [r]) (by simp at h ⊢; omega)]
    simp

lemma loopS_some_good {α : Type} :
    ∀ (rs : List α) (f : List (OutLine α)) (batch : List α),
      GoodFile f →
      ∃ f2, (loopS (some f) batch rs).1 = some f2 ∧ GoodFile f2 := by
  intro rs
  induction rs with
  | nil => intro f batch hf; exact ⟨f, rfl, hf⟩
  | cons r rs ih =>
    intro f batch hf
    by_cases hlen : (batch ++ [r]).length = 100
    · simp only [loopS, if_pos hlen]
      exact ih (f ++ (batch ++ [r]).map OutLine.data) []
        (goodFile_append_data f _ hf)
    · simp only [loopS, if_neg hlen]
      exact ih f (batch ++ [r]) hf

lemma loopS_none_flush {α : Type} :
    ∀ (rs : List α) (batch : List α),
      batch.length < 100 → 100 ≤ batch.length + rs.length →
      ∃ f2, (loopS none batch rs).1 = some f2 ∧ GoodFile f2 := by
  intro rs
  induction rs with
  | nil => intro batch h1 h2; simp at h2; omega
  | cons r rs ih =>
    intro batch h1 h2
    by_cases hlen : (batch ++ [r]).length = 100
    · simp only [loopS, if_pos hlen]
      exact loopS_some_good rs _ [] (goodFile_fresh (batch ++ [r]))
    · simp only [loopS, if_neg hlen]
      have hb : (batch ++ [r]).length < 100 := by
        simp at hlen ⊢; omega
      exact ih (batch ++ [r]) hb (by simp at h2 ⊢; omega)

lemma loopS_data_count {α : Type} :
    ∀ (rs : List α) (file : Option (List (OutLine α))) (batch : List α),
      countData ((loopS file batch rs).1.getD []) + ((loopS file batch rs).2).length
        = countData (file.getD []) + batch.length + rs.length := by
  intro rs
  induction rs with
  | nil => intro file batch; simp [loopS]
  | cons r rs ih =>
    intro file batch
    by_cases hlen : (batch ++ [r]).length = 100
    · cases file with
      | none =>
        simp only [loopS, if_pos hlen]
        rw [ih]
        simp only [Option.getD_some, Option.getD_none, List.length_nil,
          countData_header_cons, countData_map_data, countData_nil,
          List.length_append, List.length_cons]
        omega
      | some f =>
        simp only [loopS, if_pos hlen]
        rw [ih]
        simp only [Option.getD_some, List.length_nil, countData_append,
          countData_map_data, List.length_append, List.length_cons]
        omega
    · simp only [loopS, if_neg hlen]
      rw [ih file (batch ++ [r])]
      simp only [List.length_append, List.length_cons, List.length_nil]
      omega

lemma countData_runStream {α : Type} (records : List α) :
    countData (runStream records) = records.length := by
  have h := loopS_data_count records (none (α := List (OutLine α))) []
  simp only [Option.getD_none, countData_nil, List.length_nil] at h
  simp only [runStream]
  rw [countData_append, countData_map_data]
  omega

lemma runStream_small {α : Type} (records : List α)
    (h : records.length < 100) :
    runStream records = records.map OutLine.data := by
  simp only [runStream]
  rw [loopS_no_flush records none [] (by simpa using h)]
  simp

lemma runStream_big {α : Type} (records : List α)
    (h : 100 ≤ records.length) :
    countHeaders (runStream records) = 1 ∧
      (runStream records).head? = some OutLine.header := by
  obtain ⟨f2, hf2, hg1, hg2⟩ :
      ∃ f2, (loopS (none (α := List (OutLine α))) [] records).1 = some f2 ∧
        countHeaders f2 = 1 ∧ f2.head? = some OutLine.header := by
    obtain ⟨f2, h1, h2, h3⟩ := loopS_none_flush records [] (by simp) (by simpa using h)
    exact ⟨f2, h1, h2, h3⟩
  constructor
  · simp only [runStream]
    rw [countHeaders_append, hf2, Option.getD_some, hg1, countHeaders_map_data]
  · simp only [runStream]
    rw [hf2, Option.getD_some]
    cases f2 with
    | nil => simp at hg2
    | cons x t => simpa using hg2

/-! ## Record-layout lemmas -/

lemma tri_flatten_length {β : Type} (gX gY gXY : List β) (d : β) :
    (((List.range gX.length).map
      (fun i => [gX.getD i d, gY.getD i d, gXY.getD i d])).flatten).length
      = gX.length * 3 := by
  rw [flatten_length_const 3 ((List.range gX.length).map
      (fun i => [gX.getD i d, gY.getD i d, gXY.getD i d]))]
  · simp
  · intro l hl
    obtain ⟨i, _, rfl⟩ := List.mem_map.1 hl
    rfl

lemma blockModel_length (R : RbfSem) (sx sy : List ℚ) (method : String)
    (dx dy : List ℚ) (nEl : ℕ) (row : List ℚ) (j : ℕ)
    (h : dx.length = dy.length) :
    (blockModel R sx sy method dx dy nEl row j).length = 2 + 3 * dx.length := by
  simp only [blockModel]
  rw [List.length_append, tri_flatten_length]
  simp [List.length_zipWith, h]
  ring

lemma recordFwd_length (R : RbfSem) (sx sy : List ℚ) (method : String)
    (dx dy : List ℚ) (row : List ℚ) (h : dx.length = dy.length) :
    (recordFwd R sx sy method dx dy row).length = 20 * (2 + 3 * dx.length) :=
  calc (recordFwd R sx sy method dx dy row).length
      = ((List.range 20).map (blockModel R sx sy method dx dy 564 row)).length
          * (2 + 3 * dx.length) :=
        flatten_length_const _ _ (fun l hl => by
          obtain ⟨j, _, rfl⟩ := List.mem_map.1 hl
          exact blockModel_length R sx sy method dx dy 564 row j h)
    _ = 20 * (2 + 3 * dx.length) := by simp

lemma recordInv_length (R : RbfSem) (gx gy : List ℚ) (method : String)
    (cx cy : List ℚ) (row : List ℚ) (h : cx.length = cy.length) :
    (recordInv R gx gy method cx cy row).length = 20 * (2 + 3 * cx.length) :=
  calc (recordInv R gx gy method cx cy row).length
      = ((List.range 20).map
          (blockModel R gx gy method cx cy (n_el row.length).toNat row)).length
          * (2 + 3 * cx.length) :=
        flatten_length_const _ _ (fun l hl => by
          obtain ⟨j, _, rfl⟩ := List.mem_map.1 hl
          exact blockModel_length R gx gy method cx cy _ row j h)
    _ = 20 * (2 + 3 * cx.length) := by simp

lemma blockModel_getD_force (R : RbfSem) (sx sy : List ℚ) (method : String)
    (dx dy : List ℚ) (nEl : ℕ) (row : List ℚ) (j r : ℕ) (hr : r < 2) :
    (blockModel R sx sy method dx dy nEl row j).getD r 0
      = row.getD (j * nEl * 3 + j * 2 + r) 0 := by
  simp only [blockModel]
  rw [List.getD_append _ _ _ _ (by simp; omega)]
  interval_cases r
  · simp
  · simp

lemma record_getD_force (R : RbfSem) (sx sy : List ℚ) (method : String)
    (dx dy : List ℚ) (nEl : ℕ) (row : List ℚ) (j r : ℕ)
    (h : dx.length = dy.length) (hj : j < 20) (hr : r < 2) :
    (((List.range 20).map
        (blockModel R sx sy method dx dy nEl row)).flatten).getD
      (j * (2 + 3 * dx.length) + r) 0
      = row.getD (j * nEl * 3 + j * 2 + r) 0 := by
  rw [flatten_getD 0 (2 + 3 * dx.length) _ j r
      (fun l hl => by
        obtain ⟨i, _, rfl⟩ := List.mem_map.1 hl
        exact blockModel_length R sx sy method dx dy nEl row i h)
      (by simpa using hj) (by omega)]
  rw [getD_map_range _ 20 j _ hj]
  exact blockModel_getD_force R sx sy method dx dy nEl row j r hr

/-! ## Mesh lemmas -/

lemma zero_mem_linspace (n : ℕ) (h : 2 ≤ n) : (0 : ℚ) ∈ linspace n := by
  unfold linspace
  rw [if_neg (show ¬ n ≤ 1 by omega)]
  have hm := List.mem_map_of_mem (fun i : ℕ => 30 * (i : ℚ) / ((n : ℚ) - 1))
    (List.mem_range.2 (show 0 < n by omega))
  convert hm using 1
  norm_num

lemma thirty_mem_linspace (n : ℕ) (h : 2 ≤ n) : (30 : ℚ) ∈ linspace n := by
  unfold linspace
  rw [if_neg (show ¬ n ≤ 1 by omega)]
  have hn : ((n : ℚ) - 1) ≠ 0 := by
    have h2 : (2 : ℚ) ≤ (n : ℚ) := by exact_mod_cast h
    linarith
  have h30 : 30 * (((n - 1 : ℕ)) : ℚ) / ((n : ℚ) - 1) = 30 := by
    rw [Nat.cast_sub (show 1 ≤ n by omega), Nat.cast_one, mul_div_assoc,
      div_self hn, mul_one]
  have hm := List.mem_map_of_mem (fun i : ℕ => 30 * (i : ℚ) / ((n : ℚ) - 1))
    (List.mem_range.2 (show n - 1 < n by omega))
  convert hm using 1
  exact h30.symm

lemma mem_candidates {xv yv : ℚ} (n : ℕ) (hx : xv ∈ linspace n)
    (hy : yv ∈ linspace n) : (xv, yv) ∈ candidates n := by
  unfold candidates
  rw [List.mem_flatten]
  exact ⟨(linspace n).map (fun x2 => (x2, yv)),
    List.mem_map.2 ⟨yv, hy, rfl⟩, List.mem_map.2 ⟨xv, hx, rfl⟩⟩

lemma origin_mem_mesh (n : ℕ) (h : 2 ≤ n) : ((0 : ℚ), (0 : ℚ)) ∈ mesh_gen n := by
  refine List.mem_filter.2 ⟨mem_candidates n (zero_mem_linspace n h)
    (zero_mem_linspace n h), ?_⟩
  norm_num [final_region, in_main_square, out_excluded_square,
    out_excluded_circle, in_fillet_circ_1, in_fillet_circ_2,
    out_square_1, out_square_2]

lemma corner_mem_mesh (n : ℕ) (h : 2 ≤ n) : ((30 : ℚ), (0 : ℚ)) ∈ mesh_gen n := by
  refine List.mem_filter.2 ⟨mem_candidates n (thirty_mem_linspace n h)
    (zero_mem_linspace n h), ?_⟩
  norm_num [final_region, in_main_square, out_excluded_square,
    out_excluded_circle, in_fillet_circ_1, in_fillet_circ_2,
    out_square_1, out_square_2]

lemma mesh_gen_one_lt_length (n : ℕ) (h : 2 ≤ n) : 1 < (mesh_gen n).length :=
  two_mem_one_lt_length (origin_mem_mesh n h) (corner_mem_mesh n h)
    (by intro hc; rw [Prod.mk.injEq] at hc; norm_num at hc)

lemma arrTruthy_big (l : List Bool) (h : 1 < l.length) :
    arrTruthy l = Except.error () := by
  match l with
  | [] => simp at h
  | [b] => simp at h
  | a :: b :: t => rfl

/-! ## Arithmetic lemmas for the element-count recovery -/

lemma n_el_wellformed (n : ℕ) : n_el (20 * (2 + 3 * n)) = (n : ℤ) := by
  unfold n_el truncQ
  have h : (((20 * (2 + 3 * n) : ℕ) : ℚ) / 20 - 2) / 3 = (n : ℚ) := by
    push_cast
    ring
  rw [h, if_neg (show ¬ ((n : ℚ) < 0) from not_lt.2 (by positivity))]
  exact_mod_cast Int.floor_natCast n

/-! ## Claim theorems -/

/-- C1, counterexample: a forward job over a single input record on a
fresh output path performs one (final, partial-batch) flush, and the
resulting file contains no header line at all — not exactly one.  The
final flush always writes `header=False`, and with fewer than 100 records
no threshold flush ever created the file. -/
theorem spec_c1_counterexample :
    countHeaders (runJobFwd constRbf [] [] "linear" [] [] [[0]]) ≠ 1 := by
  decide

/-- C1 (amended): across the flushes of a job writing to a fresh output
path, the output file contains exactly one header line, as its first
line, iff the job has at least 100 records (at least one
threshold-triggered flush); a job with fewer than 100 records produces a
file with no header line, because the final partial-batch flush always
appends without a header and may target a nonexistent file. -/
theorem spec_c1_header_iff_threshold (R : RbfSem) (sx sy : List ℚ)
    (method : String) (dx dy gx gy cx cy : List ℚ) (rows : List (List ℚ)) :
    (100 ≤ rows.length →
      countHeaders (runJobFwd R sx sy method dx dy rows) = 1 ∧
      (runJobFwd R sx sy method dx dy rows).head? = some OutLine.header ∧
      countHeaders (runJobInv R gx gy method cx cy rows) = 1 ∧
      (runJobInv R gx gy method cx cy rows).head? = some OutLine.header) ∧
    (rows.length < 100 →
      countHeaders (runJobFwd R sx sy method dx dy rows) = 0 ∧
      countHeaders (runJobInv R gx gy method cx cy rows) = 0) := by
  constructor
  · intro h
    have h1 := runStream_big (rows.map (recordFwd R sx sy method dx dy))
      (by simpa using h)
    have h2 := runStream_big (rows.map (recordInv R gx gy method cx cy))
      (by simpa using h)
    exact ⟨h1.1, h1.2, h2.1, h2.2⟩
  · intro h
    constructor
    · simp only [runJobFwd]
      rw [runStream_small _ (by simpa using h), countHeaders_map_data]
    · simp only [runJobInv]
      rw [runStream_small _ (by simpa using h), countHeaders_map_data]

theorem spec_c1_header_iff_threshold_witness :
    countHeaders (runJobFwd constRbf [] [] "linear" [] []
        (List.replicate 100 [])) = 1 ∧
    (runJobFwd constRbf [] [] "linear" [] []
        (List.replicate 100 [])).head? = some OutLine.header := by
  have h := (spec_c1_header_iff_threshold constRbf [] [] "linear" [] [] [] []
      [] [] (List.replicate 100 [])).1 (by simp)
  exact ⟨h.1, h.2.1⟩

/-- C2, counterexample: the sanitization step is `np.nan_to_num` with
default arguments, which maps `+inf` to the largest finite float64, not
to `0`; so an array holding `+inf` is not sanitized to `[0]`. -/
theorem spec_c2_counterexample :
    sanitizeArr [FloatVal.posInf] ≠ [FloatVal.finite 0] := by
  simp only [sanitizeArr, List.map_cons, List.map_nil, nan_to_num]
  intro hc
  rw [List.cons.injEq] at hc
  have h := hc.1
  rw [FloatVal.finite.injEq] at h
  norm_num [float64Max] at h

/-- C2 (amended): the interpolated arrays are sanitized so that no
non-finite value remains, with NaN replaced by exactly 0, while `+inf`
and `-inf` are replaced by the largest and most negative finite float64
values rather than by 0. -/
theorem spec_c2_sanitize_finite (l : List FloatVal) :
    (sanitizeArr l).all isFiniteVal = true ∧
    nan_to_num FloatVal.nan = FloatVal.finite 0 ∧
    nan_to_num FloatVal.posInf = FloatVal.finite float64Max ∧
    nan_to_num FloatVal.negInf = FloatVal.finite (-float64Max) := by
  refine ⟨?_, rfl, rfl, rfl⟩
  induction l with
  | nil => rfl
  | cons v t ih => cases v <;> simpa [sanitizeArr, isFiniteVal, nan_to_num] using ih

/-- C3: for every positive resolution, a point is returned by `mesh_gen`
iff it is a candidate lattice point satisfying the cruciform-domain
predicate `final_region`: every returned point satisfies the predicate,
and every candidate satisfying it is returned. -/
theorem spec_c3_mesh_filter (n : ℕ) (h : 0 < n) (p : ℚ × ℚ) :
    p ∈ mesh_gen n ↔ (p ∈ candidates n ∧ final_region p = true) := by
  simp [mesh_gen, List.mem_filter]

theorem spec_c3_mesh_filter_witness :
    (((0 : ℚ), (0 : ℚ)) ∈ mesh_gen 2 ↔
      (((0 : ℚ), (0 : ℚ)) ∈ candidates 2 ∧ final_region (0, 0) = true)) :=
  spec_c3_mesh_filter 2 (by decide) ((0 : ℚ), (0 : ℚ))

/-- C4, counterexample: the point `(12.5, 24.17)` does not lie in
cut-out-rectangle-1 (its x-coordinate is below 13.16 and its
y-coordinate is not strictly below 24.17), so it cannot be kept *via*
the fillet-disk-1 clause as the claim states. -/
theorem spec_c4_counterexample :
    ¬ (out_square_1 (12.5, 24.17) = true ∧
        in_fillet_circ_1 (12.5, 24.17) = true ∧
        final_region (12.5, 24.17) = true) := by
  intro hc
  have h := hc.1
  norm_num [out_square_1] at h

/-- C4 (amended): `(5,5)` is kept; `(20,20)` is excluded; `(12.5, 24.17)`
does not lie in cut-out-rectangle-1 but does lie in fillet-disk-1 and is
kept — via the main clause of the predicate, not the fillet clause. -/
theorem spec_c4_concrete_cases :
    final_region (5, 5) = true ∧ final_region (20, 20) = false ∧
    out_square_1 (12.5, 24.17) = false ∧
    in_fillet_circ_1 (12.5, 24.17) = true ∧
    final_region (12.5, 24.17) = true := by
  refine ⟨?_, ?_, ?_, ?_, ?_⟩ <;>
    norm_num [final_region, in_main_square, out_excluded_square,
      out_excluded_circle, in_fillet_circ_1, in_fillet_circ_2,
      out_square_1, out_square_2]

/-- C5, counterexample: for a row of width 280 the inverse transformer
recovers an element count of 4, but the forward transformer's
timestep-1 block offset is the hard-coded `1*564*3+1*2 = 1694`, not
`1 × (2 + 3 × 4) = 14`: the forward transformer does not derive the
count from the source representation. -/
theorem spec_c5_counterexample :
    n_el 280 = 4 ∧ (fwdC 1 : ℤ) ≠ 1 * (2 + 3 * n_el 280) := by
  have h4 : n_el 280 = 4 := by
    unfold n_el truncQ
    rw [show (((280 : ℕ) : ℚ) / 20 - 2) / 3 = 4 by norm_num]
    rw [if_neg (show ¬ (4 : ℚ) < 0 by norm_num)]
    norm_num
  refine ⟨h4, ?_⟩
  rw [h4]
  norm_num [fwdC]

/-- C5 (amended): the inverse transformer recovers the per-record element
count from the total row length as `(row_length/20 − 2)/3` — exactly on
well-formed widths — and its timestep-j block begins at offset
`j × (2 + 3 × recovered-count)`; the forward transformer instead assumes
the fixed element count 564, its timestep-j block beginning at
`j × (2 + 3 × 564)` regardless of the row's actual width. -/
theorem spec_c5_offsets (n j : ℕ) :
    n_el (20 * (2 + 3 * n)) = (n : ℤ) ∧
    invC n j = j * (2 + 3 * n) ∧
    fwdC j = j * (2 + 3 * 564) := by
  refine ⟨n_el_wellformed n, ?_, ?_⟩ <;> simp [invC, fwdC] <;> ring

/-- C6: a completed transformation job writes exactly one output data row
per input data row: the output table's data-row count equals the input
table's, for forward and inverse jobs alike. -/
theorem spec_c6_row_count (R : RbfSem) (sx sy : List ℚ) (method : String)
    (dx dy gx gy cx cy : List ℚ) (rows rows2 : List (List ℚ)) :
    countData (runJobFwd R sx sy method dx dy rows) = rows.length ∧
    countData (runJobInv R gx gy method cx cy rows2) = rows2.length := by
  constructor <;> simp [runJobFwd, runJobInv, countData_runStream]

/-- C7: every output record has width exactly
`20 × (2 + 3 × destination-point-count)`: each of the 20 blocks holds the
force pair plus one triple per destination point, for forward and inverse
jobs alike. -/
theorem spec_c7_output_width (R : RbfSem) (sx sy : List ℚ) (method : String)
    (dx dy gx gy cx cy : List ℚ) (row row2 : List ℚ)
    (hd : dx.length = dy.length) (hc : cx.length = cy.length) :
    (recordFwd R sx sy method dx dy row).length = 20 * (2 + 3 * dx.length) ∧
    (recordInv R gx gy method cx cy row2).length = 20 * (2 + 3 * cx.length) :=
  ⟨recordFwd_length R sx sy method dx dy row hd,
   recordInv_length R gx gy method cx cy row2 hc⟩

theorem spec_c7_output_width_witness :
    (recordFwd constRbf [] [] "linear" [(0 : ℚ)] [(0 : ℚ)] []).length
        = 20 * (2 + 3 * 1) ∧
    (recordInv constRbf [] [] "linear" [(0 : ℚ)] [(0 : ℚ)] []).length
        = 20 * (2 + 3 * 1) := by
  have h := spec_c7_output_width constRbf [] [] "linear" [0] [0] [] []
    [0] [0] [] [] rfl rfl
  simpa using h

/-- C8: an inverse job whose forward-transformed predecessor file is
missing is skipped: `inv_interpolator` warns and returns `None`, so the
driver appends no metrics record and the sweep continues with the next
job unchanged. -/
theorem spec_c8_skip_missing (fs : List String) (b : String) (g : ℕ)
    (m : String) (ms rest : List (ℕ × String))
    (h : fnameOf b g m ∉ fs.erase (fnameInvOf b g m)) :
    inv_interpolator_model fs b g m
      = (fs.erase (fnameInvOf b g m), InvOutcome.skipped) ∧
    sweepInv b fs ms ((g, m) :: rest)
      = sweepInv b (fs.erase (fnameInvOf b g m)) ms rest := by
  have h1 : inv_interpolator_model fs b g m
      = (fs.erase (fnameInvOf b g m), InvOutcome.skipped) := by
    simp only [inv_interpolator_model]
    rw [if_neg h]
  exact ⟨h1, by simp only [sweepInv, h1]⟩

theorem spec_c8_skip_missing_witness :
    inv_interpolator_model [] "x_train" 20 "linear"
        = (([] : List String), InvOutcome.skipped) ∧
    sweepInv "x_train" [] [] [(20, "linear")] = sweepInv "x_train" [] [] [] := by
  have h := spec_c8_skip_missing [] "x_train" 20 "linear" [] [] (by simp)
  simpa using h

/-- C9: the force pair is copied verbatim: in every timestep block the
first two cells of the output block (at offset `j × (2 + 3 × dest-count)`)
equal the input row's cells at the block's source offset — `fwdC j` for
the forward transformer, `invC` of the recovered count for the inverse —
with no interpolation applied to them. -/
theorem spec_c9_force_passthrough (R : RbfSem) (sx sy : List ℚ)
    (method : String) (dx dy gx gy cx cy : List ℚ) (row row2 : List ℚ)
    (j r : ℕ) (hj : j < 20) (hr : r < 2)
    (hd : dx.length = dy.length) (hc : cx.length = cy.length) :
    (recordFwd R sx sy method dx dy row).getD (j * (2 + 3 * dx.length) + r) 0
      = row.getD (fwdC j + r) 0 ∧
    (recordInv R gx gy method cx cy row2).getD (j * (2 + 3 * cx.length) + r) 0
      = row2.getD (invC (n_el row2.length).toNat j + r) 0 := by
  constructor
  · have h := record_getD_force R sx sy method dx dy 564 row j r hd hj hr
    simpa [recordFwd, fwdC] using h
  · have h := record_getD_force R gx gy method cx cy (n_el row2.length).toNat
      row2 j r hc hj hr
    simpa [recordInv, invC] using h

theorem spec_c9_force_passthrough_witness :
    (recordFwd constRbf [] [] "linear" [(0 : ℚ)] [(0 : ℚ)] [(7 : ℚ)]).getD 0 0
        = 7 ∧
    (recordInv constRbf [] [] "linear" [(0 : ℚ)] [(0 : ℚ)] [(7 : ℚ)]).getD 0 0
        = 7 := by
  have h := spec_c9_force_passthrough constRbf [] [] "linear" [0] [0] [0] [0]
    [0] [0] [(7 : ℚ)] [(7 : ℚ)] 0 0 (by decide) (by decide) rfl rfl
  simpa [fwdC, invC] using h

/-- C10: when an inverse job's predecessor file exists and the generated
mesh has more than one point, the guard `if grid_x == None:` raises a
`ValueError` (ambiguous truth value of a multi-element array) before any
record is read, so the job crashes instead of reaching its streaming
loop; and each configured resolution 20, 30, 40 generates a mesh with
more than one point. -/
theorem spec_c10_guard_crash :
    (∀ (fs : List String) (b m : String) (g : ℕ),
        1 < (mesh_gen g).length →
        fnameOf b g m ∈ fs.erase (fnameInvOf b g m) →
        inv_interpolator_model fs b g m
          = (fs.erase (fnameInvOf b g m), InvOutcome.crashed)) ∧
    (∀ g ∈ GRIDS, 1 < (mesh_gen g).length) := by
  constructor
  · intro fs b m g hg hmem
    have ht : arrTruthy ((mesh_gen g).map (fun _ => false)) = Except.error () :=
      arrTruthy_big _ (by simpa using hg)
    simp only [inv_interpolator_model, ht]
    rw [if_pos hmem]
  · intro g hg
    have h2 : 2 ≤ g := by
      simp only [GRIDS, List.mem_cons, List.not_mem_nil, or_false] at hg
      rcases hg with rfl | rfl | rfl <;> norm_num
    exact mesh_gen_one_lt_length g h2

theorem spec_c10_guard_crash_witness :
    inv_interpolator_model [fnameOf "x_train" 20 "linear"] "x_train" 20 "linear"
      = ([fnameOf "x_train" 20 "linear"], InvOutcome.crashed) := by
  have herase : ([fnameOf "x_train" 20 "linear"] : List String).erase
      (fnameInvOf "x_train" 20 "linear") = [fnameOf "x_train" 20 "linear"] := by
    decide
  have h := spec_c10_guard_crash.1 [fnameOf "x_train" 20 "linear"]
    "x_train" "linear" 20 (spec_c10_guard_crash.2 20 (by decide))
    (by rw [herase]; exact List.mem_singleton.2 rfl)
  rw [herase] at h
  exact h

end MLCCM
